import Mathlib

/-!
Verification development for the TERA file-sync engine (vuex-tera-json).

The file shallowly embeds the parts of `src/index.ts` (and its helper
`api.ts`) that the verified properties speak about:

* the codec `mapSetToObject` / `objectToMapSet` over a model of the
  JavaScript value universe (plain objects, arrays, dates, Maps, Sets,
  scalar primitives);
* the save-status state machine of `TeraFileSyncPlugin.saveStateToFile`
  together with the dirty-tracking subscription of
  `setupStateChangeTracking`;
* the retry executor used for every remote operation;
* the lazy file-provisioning logic of `getStorageFileName`;
* the load path `loadStateFromFile` / `loadAndApplyStateFromFile` over
  `api.getFileContent`;
* the mutation filters of `VuexAdapter.subscribe` and
  `PiniaAdapter.subscribe`;
* a two-level (top-level binding vs shared heap cell) model of the state
  snapshot taken by `VuexAdapter.getState` at the start of a save.
-/

/-! ### The JavaScript value model used by the codec -/

/-- Scalar JavaScript values: `null`, booleans, numbers, strings.
They pass through both codec directions unchanged. -/
inductive JPrim where
  | vnull
  | vbool (b : Bool)
  | vnum (n : Int)
  | vstr (s : String)
deriving DecidableEq, Repr

/-- A JavaScript `Map` key.  Map keys need not be strings; when a key is
used as an object property name (as `mapSetToObject` does with
`obj[key] = ...`) it is coerced to its string form. -/
inductive JKey where
  | str (s : String)
  | num (n : Int)
deriving DecidableEq, Repr

/-- String coercion applied by JavaScript when a Map key is used as an
object property name. -/
def JKey.propName : JKey → String
  | .str s => s
  | .num n => toString n

/-- The value universe the codec operates on: scalars, `Date`s, arrays,
plain objects (insertion-ordered fields), `Map`s (insertion-ordered
entries, arbitrary keys) and `Set`s (insertion-ordered elements). -/
inductive JVal where
  | prim (p : JPrim)
  | date (t : Int)
  | arr (xs : List JVal)
  | obj (fs : List (String × JVal))
  | map (es : List (JKey × JVal))
  | set (xs : List JVal)
deriving Repr

/-- Property-existence test on an object field list
(the `'k' in obj` check). -/
def hasKey (fs : List (String × JVal)) (k : String) : Bool :=
  fs.any (fun kv => kv.1 == k)

/-- Property read on an object field list (`obj.k`). -/
def getProp : List (String × JVal) → String → Option JVal
  | [], _ => none
  | kv :: rest, k => if kv.1 == k then some kv.2 else getProp rest k

/-- Property assignment `obj[k] = v` on an object field list:
overwrites in place when the key exists, appends otherwise. -/
def setProp (fs : List (String × JVal)) (k : String) (v : JVal) : List (String × JVal) :=
  if fs.any (fun kv => kv.1 == k) then
    fs.map (fun kv => if kv.1 == k then (kv.1, v) else kv)
  else fs ++ [(k, v)]

/-- Building an object by successive property assignments starting from
the empty object literal, as in the `forEach` loops of the codec. -/
def buildObj (l : List (String × JVal)) : List (String × JVal) :=
  l.foldl (fun acc kv => setProp acc kv.1 kv.2) []

/-- Whether a scalar already occurs in a list of values.  Used to model
the `SameValueZero` deduplication performed by the `Set` constructor:
two equal scalars are always the same JavaScript value, while two
structurally equal non-scalars are (here) distinct fresh references. -/
def primIn (p : JPrim) (l : List JVal) : Bool :=
  l.any (fun y => match y with | .prim q => p == q | _ => false)

/-- One insertion step of the JavaScript `Set` constructor. -/
def svzInsert (acc : List JVal) (x : JVal) : List JVal :=
  match x with
  | .prim p => if primIn p acc then acc else acc ++ [x]
  | _ => acc ++ [x]

/-- `new Set(l)` on decoded (fresh, pairwise non-aliased) values. -/
def buildSet (l : List JVal) : List JVal :=
  l.foldl svzInsert []

/-- Re-tagging the string property names of a rebuilt `Map` as Map keys:
a Map decoded from an object always has string keys. -/
def tagStr (l : List (String × JVal)) : List (JKey × JVal) :=
  l.map (fun kv => (JKey.str kv.1, kv.2))

/-! ### `mapSetToObject` (the encoder, `src/index.ts` lines 329-361) -/

mutual
/-- `mapSetToObject`: Maps become objects carrying `__isMap: true` plus
one property per entry (the key coerced to a property name); Sets become
objects carrying `__isSet: true` and a `values` array; arrays and plain
objects recurse; `Date`s and scalars pass through. -/
def mapSetToObject : JVal → JVal
  | .map es => .obj (buildObj (("__isMap", .prim (.vbool true)) :: encodeMapEntries es))
  | .set xs => .obj [("__isSet", .prim (.vbool true)), ("values", .arr (encodeList xs))]
  | .arr xs => .arr (encodeList xs)
  | .obj fs => .obj (buildObj (encodeFields fs))
  | .date t => .date t
  | .prim p => .prim p
termination_by v => sizeOf v
decreasing_by all_goals simp_wf <;> omega

/-- Element-wise encoding of an array (`item.map(mapSetToObject)`). -/
def encodeList : List JVal → List JVal
  | [] => []
  | x :: xs => mapSetToObject x :: encodeList xs
termination_by xs => sizeOf xs
decreasing_by all_goals simp_wf <;> omega

/-- Field-wise encoding of a plain object
(`Object.entries(item).forEach(...)`). -/
def encodeFields : List (String × JVal) → List (String × JVal)
  | [] => []
  | (k, v) :: rest => (k, mapSetToObject v) :: encodeFields rest
termination_by fs => sizeOf fs
decreasing_by all_goals simp_wf <;> omega

/-- Entry-wise encoding of a `Map` (`item.forEach(...)`), coercing each
key to a property name. -/
def encodeMapEntries : List (JKey × JVal) → List (String × JVal)
  | [] => []
  | (k, v) :: rest => (k.propName, mapSetToObject v) :: encodeMapEntries rest
termination_by es => sizeOf es
decreasing_by all_goals simp_wf <;> omega
end

/-- Auxiliary size bound: a property read returns a structurally smaller
value. -/
theorem getProp_sizeOf {fs : List (String × JVal)} {k : String} {v : JVal}
    (h : getProp fs k = some v) : sizeOf v < sizeOf fs := by
  induction fs with
  | nil => simp [getProp] at h
  | cons kv rest ih =>
    by_cases hk : kv.1 == k
    · simp [getProp, hk] at h
      subst h
      cases kv with
      | mk a b => simp; omega
    · simp [getProp, hk] at h
      have := ih h
      simp
      omega

/-! ### `objectToMapSet` (the decoder, `src/index.ts` lines 363-394)

The decoder can throw (e.g. `obj.values.map` when `values` is absent or
not an array); this is modelled by returning `none`. -/

mutual
/-- `objectToMapSet`: an object carrying `__isMap` is rebuilt into a Map
(skipping the marker, keys becoming string Map keys); an object carrying
`__isSet` is rebuilt into a Set from its `values` array; arrays and
other plain objects recurse; scalars and `Date`s pass through.  A `Map`
or `Set` instance fed directly to the decoder has no own enumerable
properties, so the final `Object.entries` branch rebuilds it as the
empty object. -/
def objectToMapSet : JVal → Option JVal
  | .prim p => some (.prim p)
  | .date t => some (.date t)
  | .map _ => some (.obj [])
  | .set _ => some (.obj [])
  | .arr xs =>
    match decodeList xs with
    | none => none
    | some ys => some (.arr ys)
  | .obj fs =>
    if hasKey fs "__isMap" then
      match decodeMapEntries fs with
      | none => none
      | some entries => some (.map (tagStr (buildObj entries)))
    else if hasKey fs "__isSet" then
      match h : getProp fs "values" with
      | some (.arr xs) =>
        match decodeList xs with
        | none => none
        | some ys => some (.set (buildSet ys))
      | _ => none
    else
      match decodeFields fs with
      | none => none
      | some fields => some (.obj (buildObj fields))
termination_by v => sizeOf v
decreasing_by
  all_goals simp_wf
  obtain hsz := getProp_sizeOf h
  simp at hsz
  omega

/-- Element-wise decoding of an array, propagating a thrown error. -/
def decodeList : List JVal → Option (List JVal)
  | [] => some []
  | x :: xs =>
    match objectToMapSet x with
    | none => none
    | some y =>
      match decodeList xs with
      | none => none
      | some ys => some (y :: ys)
termination_by xs => sizeOf xs
decreasing_by all_goals simp_wf <;> omega

/-- Field-wise decoding of a plain object. -/
def decodeFields : List (String × JVal) → Option (List (String × JVal))
  | [] => some []
  | (k, v) :: rest =>
    match objectToMapSet v with
    | none => none
    | some v2 =>
      match decodeFields rest with
      | none => none
      | some rest2 => some ((k, v2) :: rest2)
termination_by fs => sizeOf fs
decreasing_by all_goals simp_wf <;> omega

/-- Entry-wise decoding of a tagged Map object, skipping the `__isMap`
marker key exactly as the guarded `forEach` does. -/
def decodeMapEntries : List (String × JVal) → Option (List (String × JVal))
  | [] => some []
  | (k, v) :: rest =>
    if k == "__isMap" then decodeMapEntries rest
    else
      match objectToMapSet v with
      | none => none
      | some v2 =>
        match decodeMapEntries rest with
        | none => none
        | some rest2 => some ((k, v2) :: rest2)
termination_by fs => sizeOf fs
decreasing_by all_goals simp_wf <;> omega
end

/-! ### Well-formedness of values for the round-trip property -/

/-- Key names of an object field list, in order. -/
def keysOf (l : List (String × JVal)) : List String :=
  l.map Prod.fst

/-- Membership of a string in a list of strings, as a Bool. -/
def strIn (s : String) (l : List String) : Bool :=
  l.any (fun t => t == s)

/-- No string occurs twice. -/
def nodupStr : List String → Bool
  | [] => true
  | s :: rest => !(strIn s rest) && nodupStr rest

/-- No field name collides with one of the codec tag markers. -/
def noMarkers (fs : List (String × JVal)) : Bool :=
  fs.all (fun kv => !(kv.1 == "__isMap") && !(kv.1 == "__isSet"))

/-- Property names of a Map entry list after key coercion, in order. -/
def entryNames (es : List (JKey × JVal)) : List String :=
  es.map (fun kv => kv.1.propName)

/-- All Map keys are strings distinct from the `__isMap` marker (the
marker would be overwritten by the entry during encoding). -/
def strKeys (es : List (JKey × JVal)) : Bool :=
  es.all (fun kv => match kv.1 with | .str s => !(s == "__isMap") | .num _ => false)

/-- No scalar occurs twice (a real JavaScript Set cannot hold the same
scalar twice; structurally equal non-scalars are distinct references and
are allowed). -/
def noPrimDup : List JVal → Bool
  | [] => true
  | x :: xs => (match x with | .prim p => !(primIn p xs) | _ => true) && noPrimDup xs

mutual
/-- Values for which the round trip is proved: object keys are duplicate
free and avoid the two tag markers, Map keys are strings other than
`__isMap` with duplicate-free coerced names, Set elements have no
duplicate scalar.  Every genuine JavaScript value built from plain
objects, arrays, dates, string-keyed Maps and Sets satisfies this. -/
def wfV : JVal → Bool
  | .prim _ => true
  | .date _ => true
  | .arr xs => wfL xs
  | .obj fs => nodupStr (keysOf fs) && noMarkers fs && wfF fs
  | .map es => strKeys es && nodupStr (entryNames es) && wfE es
  | .set xs => noPrimDup xs && wfL xs
termination_by v => sizeOf v
decreasing_by all_goals simp_wf <;> omega

/-- All elements well formed. -/
def wfL : List JVal → Bool
  | [] => true
  | x :: xs => wfV x && wfL xs
termination_by xs => sizeOf xs
decreasing_by all_goals simp_wf <;> omega

/-- All field values well formed. -/
def wfF : List (String × JVal) → Bool
  | [] => true
  | (_, v) :: rest => wfV v && wfF rest
termination_by fs => sizeOf fs
decreasing_by all_goals simp_wf <;> omega

/-- All Map entry values well formed. -/
def wfE : List (JKey × JVal) → Bool
  | [] => true
  | (_, v) :: rest => wfV v && wfE rest
termination_by es => sizeOf es
decreasing_by all_goals simp_wf <;> omega
end

mutual
/-- The precondition stated by the specification itself: no plain-object
key collides with the tag markers `__isMap` / `__isSet`.  Maps (of any
key type) and Sets are unconstrained. -/
def cpV : JVal → Bool
  | .prim _ => true
  | .date _ => true
  | .arr xs => cpL xs
  | .obj fs => noMarkers fs && cpF fs
  | .map es => cpE es
  | .set xs => cpL xs
termination_by v => sizeOf v
decreasing_by all_goals simp_wf <;> omega

/-- Claim precondition for all elements. -/
def cpL : List JVal → Bool
  | [] => true
  | x :: xs => cpV x && cpL xs
termination_by xs => sizeOf xs
decreasing_by all_goals simp_wf <;> omega

/-- Claim precondition for all field values. -/
def cpF : List (String × JVal) → Bool
  | [] => true
  | (_, v) :: rest => cpV v && cpF rest
termination_by fs => sizeOf fs
decreasing_by all_goals simp_wf <;> omega

/-- Claim precondition for all Map entry values. -/
def cpE : List (JKey × JVal) → Bool
  | [] => true
  | (_, v) :: rest => cpV v && cpE rest
termination_by es => sizeOf es
decreasing_by all_goals simp_wf <;> omega
end

/-! ### Basic facts about the object/Set building blocks -/

theorem strIn_iff {s : String} {l : List String} : strIn s l = true ↔ s ∈ l := by
  simp [strIn, List.any_eq_true]

theorem strIn_eq_false_iff {s : String} {l : List String} : strIn s l = false ↔ s ∉ l := by
  rw [← Bool.not_eq_true, strIn_iff]

theorem hasKey_eq_strIn (fs : List (String × JVal)) (k : String) :
    hasKey fs k = strIn k (keysOf fs) := by
  induction fs with
  | nil => rfl
  | cons kv rest ih => simp [hasKey, strIn, keysOf, List.any_cons] at ih ⊢; rw [ih]

theorem hasKey_nil (k : String) : hasKey [] k = false := rfl

theorem hasKey_append (a b : List (String × JVal)) (k : String) :
    hasKey (a ++ b) k = (hasKey a k || hasKey b k) := by
  simp [hasKey, List.any_append]

theorem setProp_of_not_hasKey {fs : List (String × JVal)} {k : String} (v : JVal)
    (h : hasKey fs k = false) : setProp fs k v = fs ++ [(k, v)] := by
  unfold setProp
  rw [show (fs.any fun kv => kv.1 == k) = hasKey fs k from rfl, h]
  simp

theorem foldl_setProp_eq_append :
    ∀ (l acc : List (String × JVal)),
      (∀ kv ∈ l, hasKey acc kv.1 = false) → nodupStr (keysOf l) = true →
      l.foldl (fun acc kv => setProp acc kv.1 kv.2) acc = acc ++ l := by
  intro l
  induction l with
  | nil => intro acc _ _; simp
  | cons kv rest ih =>
    intro acc habs hnd
    simp only [keysOf, List.map_cons, nodupStr, Bool.and_eq_true] at hnd
    obtain ⟨hnotin, hndrest⟩ := hnd
    rw [List.foldl_cons, setProp_of_not_hasKey kv.2 (habs kv (by simp))]
    have hrec := ih (acc ++ [(kv.1, kv.2)]) ?_ (by simpa [keysOf] using hndrest)
    · rw [hrec]; simp
    · intro kv2 hkv2
      rw [hasKey_append, habs kv2 (by simp [hkv2]), Bool.false_or]
      have hne : kv.1 ≠ kv2.1 := by
        intro he
        have hmem : kv2.1 ∈ List.map Prod.fst rest := List.mem_map_of_mem Prod.fst hkv2
        rw [← he] at hmem
        have hin : strIn kv.1 (List.map Prod.fst rest) = true := strIn_iff.mpr hmem
        rw [hin] at hnotin
        simp at hnotin
      simp [hasKey, hne]

theorem buildObj_eq_self {l : List (String × JVal)} (h : nodupStr (keysOf l) = true) :
    buildObj l = l := by
  unfold buildObj
  rw [foldl_setProp_eq_append l [] (fun kv _ => rfl) h]
  simp

theorem primIn_cons (p : JPrim) (y : JVal) (l : List JVal) :
    primIn p (y :: l) =
      ((match y with | .prim q => p == q | _ => false) || primIn p l) := by
  simp [primIn, List.any_cons]

theorem primIn_append (p : JPrim) (a b : List JVal) :
    primIn p (a ++ b) = (primIn p a || primIn p b) := by
  simp [primIn, List.any_append]

theorem foldl_svzInsert_eq_append :
    ∀ (l acc : List JVal),
      noPrimDup l = true → (∀ p, primIn p l = true → primIn p acc = false) →
      l.foldl svzInsert acc = acc ++ l := by
  intro l
  induction l with
  | nil => intro acc _ _; simp
  | cons x rest ih =>
    intro acc hnd habs
    rw [List.foldl_cons]
    cases x with
    | prim p =>
      simp only [noPrimDup, Bool.and_eq_true] at hnd
      obtain ⟨hnotin, hndrest⟩ := hnd
      have hpacc : primIn p acc = false := by
        apply habs
        rw [primIn_cons]
        simp
      rw [show svzInsert acc (.prim p) = acc ++ [.prim p] by simp [svzInsert, hpacc]]
      rw [ih (acc ++ [JVal.prim p]) hndrest ?_]
      · simp
      · intro q hq
        rw [primIn_append]
        have hqacc : primIn q acc = false := by
          apply habs
          rw [primIn_cons]
          simp [hq]
        have hqp : (q == p) = false := by
          by_contra hb
          rw [Bool.not_eq_false, beq_iff_eq] at hb
          subst hb
          simp at hnotin
          rw [hq] at hnotin
          exact absurd hnotin (by simp)
        rw [hqacc]
        have hone : primIn q [JVal.prim p] = false := by
          simp [primIn, hqp]
        rw [hone]
        simp
    | date t =>
      simp only [noPrimDup, Bool.and_eq_true] at hnd
      rw [show svzInsert acc (.date t) = acc ++ [.date t] from rfl]
      rw [ih (acc ++ [JVal.date t]) hnd.2 ?_]
      · simp
      · intro q hq
        rw [primIn_append]
        have : primIn q acc = false := by
          apply habs; rw [primIn_cons]; simp [hq]
        rw [this]
        simp [primIn]
    | arr xs =>
      simp only [noPrimDup, Bool.and_eq_true] at hnd
      rw [show svzInsert acc (.arr xs) = acc ++ [.arr xs] from rfl]
      rw [ih (acc ++ [JVal.arr xs]) hnd.2 ?_]
      · simp
      · intro q hq
        rw [primIn_append]
        have : primIn q acc = false := by
          apply habs; rw [primIn_cons]; simp [hq]
        rw [this]
        simp [primIn]
    | obj fs =>
      simp only [noPrimDup, Bool.and_eq_true] at hnd
      rw [show svzInsert acc (.obj fs) = acc ++ [.obj fs] from rfl]
      rw [ih (acc ++ [JVal.obj fs]) hnd.2 ?_]
      · simp
      · intro q hq
        rw [primIn_append]
        have : primIn q acc = false := by
          apply habs; rw [primIn_cons]; simp [hq]
        rw [this]
        simp [primIn]
    | map es =>
      simp only [noPrimDup, Bool.and_eq_true] at hnd
      rw [show svzInsert acc (.map es) = acc ++ [.map es] from rfl]
      rw [ih (acc ++ [JVal.map es]) hnd.2 ?_]
      · simp
      · intro q hq
        rw [primIn_append]
        have : primIn q acc = false := by
          apply habs; rw [primIn_cons]; simp [hq]
        rw [this]
        simp [primIn]
    | set xs =>
      simp only [noPrimDup, Bool.and_eq_true] at hnd
      rw [show svzInsert acc (.set xs) = acc ++ [.set xs] from rfl]
      rw [ih (acc ++ [JVal.set xs]) hnd.2 ?_]
      · simp
      · intro q hq
        rw [primIn_append]
        have : primIn q acc = false := by
          apply habs; rw [primIn_cons]; simp [hq]
        rw [this]
        simp [primIn]

theorem buildSet_eq_self {l : List JVal} (h : noPrimDup l = true) : buildSet l = l := by
  unfold buildSet
  rw [foldl_svzInsert_eq_append l [] h (fun p _ => rfl)]
  simp

/-! ### Keys of encoded objects and Maps -/

theorem keysOf_encodeFields (fs : List (String × JVal)) :
    keysOf (encodeFields fs) = keysOf fs := by
  induction fs with
  | nil => simp [encodeFields, keysOf]
  | cons kv rest ih =>
    obtain ⟨k, v⟩ := kv
    rw [encodeFields]
    simp [keysOf] at ih ⊢
    exact ih

theorem keysOf_encodeMapEntries (es : List (JKey × JVal)) :
    keysOf (encodeMapEntries es) = entryNames es := by
  induction es with
  | nil => simp [encodeMapEntries, keysOf, entryNames]
  | cons kv rest ih =>
    obtain ⟨k, v⟩ := kv
    rw [encodeMapEntries]
    simp [keysOf, entryNames] at ih ⊢
    exact ih

theorem noMarkers_strIn {fs : List (String × JVal)} (h : noMarkers fs = true) :
    strIn "__isMap" (keysOf fs) = false ∧ strIn "__isSet" (keysOf fs) = false := by
  simp [noMarkers, List.all_eq_true] at h
  constructor <;>
  · rw [strIn_eq_false_iff]
    intro hmem
    simp [keysOf] at hmem
    obtain ⟨v, hv⟩ := hmem
    have := h _ _ hv
    simp at this

theorem strKeys_marker_strIn :
    ∀ {es : List (JKey × JVal)}, strKeys es = true →
      strIn "__isMap" (entryNames es) = false := by
  intro es
  induction es with
  | nil => intro _; rfl
  | cons kv rest ih =>
    intro h
    obtain ⟨k, v⟩ := kv
    simp only [strKeys, List.all_cons, Bool.and_eq_true] at h
    obtain ⟨hh, ht⟩ := h
    have hrest : strIn "__isMap" (entryNames rest) = false :=
      ih (by simpa [strKeys] using ht)
    cases k with
    | str s =>
      simp only at hh
      simp [entryNames, strIn, List.any_cons, JKey.propName] at hh hrest ⊢
      exact ⟨hh, hrest⟩
    | num n => simp at hh

/-- Property names of a Map entry list after stripping keys to their
coerced names. -/
def stripEntries (es : List (JKey × JVal)) : List (String × JVal) :=
  es.map (fun kv => (kv.1.propName, kv.2))

theorem keysOf_stripEntries (es : List (JKey × JVal)) :
    keysOf (stripEntries es) = entryNames es := by
  simp [keysOf, stripEntries, entryNames]

theorem tagStr_stripEntries :
    ∀ {es : List (JKey × JVal)}, strKeys es = true →
      tagStr (stripEntries es) = es := by
  intro es
  induction es with
  | nil => intro _; rfl
  | cons kv rest ih =>
    intro h
    obtain ⟨k, v⟩ := kv
    simp only [strKeys, List.all_cons, Bool.and_eq_true] at h
    obtain ⟨hh, ht⟩ := h
    have hrest : tagStr (stripEntries rest) = rest := ih (by simpa [strKeys] using ht)
    cases k with
    | str s =>
      simp [tagStr, stripEntries, JKey.propName] at hrest ⊢
      exact hrest
    | num n => simp at hh

/-! ### Decoding an encoded list / object / Map entry list -/

theorem decodeList_encodeList :
    ∀ (xs : List JVal),
      (∀ x ∈ xs, wfV x = true → objectToMapSet (mapSetToObject x) = some x) →
      wfL xs = true → decodeList (encodeList xs) = some xs := by
  intro xs
  induction xs with
  | nil => intro _ _; simp [encodeList, decodeList]
  | cons x rest ih =>
    intro hpt hwf
    simp only [wfL, Bool.and_eq_true] at hwf
    rw [encodeList, decodeList]
    rw [hpt x (by simp) hwf.1]
    rw [ih (fun y hy => hpt y (by simp [hy])) hwf.2]

theorem decodeFields_encodeFields :
    ∀ (fs : List (String × JVal)),
      (∀ kv ∈ fs, wfV kv.2 = true → objectToMapSet (mapSetToObject kv.2) = some kv.2) →
      wfF fs = true → decodeFields (encodeFields fs) = some fs := by
  intro fs
  induction fs with
  | nil => intro _ _; simp [encodeFields, decodeFields]
  | cons kv rest ih =>
    intro hpt hwf
    obtain ⟨k, v⟩ := kv
    simp only [wfF, Bool.and_eq_true] at hwf
    rw [encodeFields, decodeFields]
    rw [hpt (k, v) (by simp) hwf.1]
    rw [ih (fun y hy => hpt y (by simp [hy])) hwf.2]

theorem decodeMapEntries_encodeMapEntries :
    ∀ (es : List (JKey × JVal)),
      (∀ kv ∈ es, wfV kv.2 = true → objectToMapSet (mapSetToObject kv.2) = some kv.2) →
      strKeys es = true → wfE es = true →
      decodeMapEntries (encodeMapEntries es) = some (stripEntries es) := by
  intro es
  induction es with
  | nil => intro _ _ _; simp [encodeMapEntries, decodeMapEntries, stripEntries]
  | cons kv rest ih =>
    intro hpt hsk hwf
    obtain ⟨k, v⟩ := kv
    simp only [strKeys, List.all_cons, Bool.and_eq_true] at hsk
    obtain ⟨hh, ht⟩ := hsk
    simp only [wfE, Bool.and_eq_true] at hwf
    cases k with
    | str s =>
      simp only at hh
      rw [encodeMapEntries, decodeMapEntries]
      simp only [JKey.propName]
      rw [if_neg (by simpa using hh)]
      rw [hpt (JKey.str s, v) (by simp) hwf.1]
      rw [ih (fun y hy => hpt y (by simp [hy])) (by simpa [strKeys] using ht) hwf.2]
      simp [stripEntries, JKey.propName]
    | num n => simp at hh

/-- Nested induction principle for the JavaScript value universe: the
inductive hypothesis is available for every list element / field value /
entry value. -/
theorem JVal.inductionOn {P : JVal → Prop}
    (hprim : ∀ p, P (JVal.prim p))
    (hdate : ∀ t, P (JVal.date t))
    (harr : ∀ xs, (∀ x ∈ xs, P x) → P (JVal.arr xs))
    (hobj : ∀ fs, (∀ kv ∈ fs, P kv.2) → P (JVal.obj fs))
    (hmap : ∀ es, (∀ kv ∈ es, P kv.2) → P (JVal.map es))
    (hset : ∀ xs, (∀ x ∈ xs, P x) → P (JVal.set xs)) :
    ∀ v, P v
  | .prim p => hprim p
  | .date t => hdate t
  | .arr xs =>
    harr xs (fun x hx => JVal.inductionOn hprim hdate harr hobj hmap hset x)
  | .obj fs =>
    hobj fs (fun kv hkv => JVal.inductionOn hprim hdate harr hobj hmap hset kv.2)
  | .map es =>
    hmap es (fun kv hkv => JVal.inductionOn hprim hdate harr hobj hmap hset kv.2)
  | .set xs =>
    hset xs (fun x hx => JVal.inductionOn hprim hdate harr hobj hmap hset x)
termination_by v => sizeOf v
decreasing_by
  all_goals simp_wf
  · have := List.sizeOf_lt_of_mem hx; omega
  · have h1 := List.sizeOf_lt_of_mem hkv
    obtain ⟨a, b⟩ := kv
    simp at h1 ⊢
    omega
  · have h1 := List.sizeOf_lt_of_mem hkv
    obtain ⟨a, b⟩ := kv
    simp at h1 ⊢
    omega
  · have := List.sizeOf_lt_of_mem hx; omega

/-- Round trip of the codec on well-formed values. -/
theorem roundtrip : ∀ v, wfV v = true → objectToMapSet (mapSetToObject v) = some v := by
  intro v
  induction v using JVal.inductionOn with
  | hprim p => intro _; rw [mapSetToObject, objectToMapSet]
  | hdate t => intro _; rw [mapSetToObject, objectToMapSet]
  | harr xs ih =>
    intro h
    rw [mapSetToObject, objectToMapSet]
    rw [decodeList_encodeList xs ih (by simpa [wfV] using h)]
  | hobj fs ih =>
    intro h
    simp only [wfV, Bool.and_eq_true] at h
    obtain ⟨⟨hnd, hnm⟩, hwf⟩ := h
    rw [mapSetToObject]
    rw [buildObj_eq_self (by rw [keysOf_encodeFields]; exact hnd)]
    have h1 : hasKey (encodeFields fs) "__isMap" = false := by
      rw [hasKey_eq_strIn, keysOf_encodeFields]; exact (noMarkers_strIn hnm).1
    have h2 : hasKey (encodeFields fs) "__isSet" = false := by
      rw [hasKey_eq_strIn, keysOf_encodeFields]; exact (noMarkers_strIn hnm).2
    rw [objectToMapSet]
    rw [h1, h2]
    simp only [Bool.false_eq_true, if_false]
    rw [decodeFields_encodeFields fs ih hwf]
    simp [buildObj_eq_self hnd]
  | hmap es ih =>
    intro h
    simp only [wfV, Bool.and_eq_true] at h
    obtain ⟨⟨hsk, hnd⟩, hwf⟩ := h
    rw [mapSetToObject]
    have hfull :
        nodupStr (keysOf (("__isMap", JVal.prim (JPrim.vbool true)) :: encodeMapEntries es)) =
          true := by
      simp only [keysOf, List.map_cons, nodupStr, Bool.and_eq_true]
      constructor
      · rw [show List.map Prod.fst (encodeMapEntries es) = keysOf (encodeMapEntries es) from rfl]
        rw [keysOf_encodeMapEntries]
        rw [strKeys_marker_strIn hsk]
        rfl
      · rw [show List.map Prod.fst (encodeMapEntries es) = keysOf (encodeMapEntries es) from rfl]
        rw [keysOf_encodeMapEntries]
        exact hnd
    rw [buildObj_eq_self hfull]
    have hk :
        hasKey (("__isMap", JVal.prim (JPrim.vbool true)) :: encodeMapEntries es) "__isMap" =
          true := by
      simp [hasKey]
    rw [objectToMapSet]
    rw [hk]
    simp only [if_true]
    rw [decodeMapEntries]
    simp only [beq_self_eq_true, if_true]
    rw [decodeMapEntries_encodeMapEntries es ih hsk hwf]
    have hnd2 : nodupStr (keysOf (stripEntries es)) = true := by
      rw [keysOf_stripEntries]; exact hnd
    simp [buildObj_eq_self hnd2, tagStr_stripEntries hsk]
  | hset xs ih =>
    intro h
    simp only [wfV, Bool.and_eq_true] at h
    obtain ⟨hpd, hwf⟩ := h
    rw [mapSetToObject]
    have h1 :
        hasKey [("__isSet", JVal.prim (JPrim.vbool true)),
          ("values", JVal.arr (encodeList xs))] "__isMap" = false := by
      simp [hasKey]
    have h2 :
        hasKey [("__isSet", JVal.prim (JPrim.vbool true)),
          ("values", JVal.arr (encodeList xs))] "__isSet" = true := by
      simp [hasKey]
    have hg :
        getProp [("__isSet", JVal.prim (JPrim.vbool true)),
          ("values", JVal.arr (encodeList xs))] "values" =
          some (JVal.arr (encodeList xs)) := by
      simp [getProp]
    rw [objectToMapSet]
    rw [h1, h2]
    simp only [Bool.false_eq_true, if_false, if_true]
    rw [hg]
    simp [decodeList_encodeList xs ih hwf, buildSet_eq_self hpd]

/-! ### Settling the round-trip claim -/

theorem propName_num_one : JKey.propName (JKey.num 1) = "1" := rfl

/-- Claim C1 counterexample: a Map with the non-string key `1` satisfies
the claim precondition (no plain-object key collides with the tag
markers) yet fails the round trip — the key is coerced to the property
name `"1"` during encoding and decoded back as the string key `"1"`. -/
theorem C1_map_nonstring_key_fails :
    cpV (JVal.map [(JKey.num 1, JVal.prim (JPrim.vnum 0))]) = true ∧
    objectToMapSet (mapSetToObject (JVal.map [(JKey.num 1, JVal.prim (JPrim.vnum 0))])) ≠
      some (JVal.map [(JKey.num 1, JVal.prim (JPrim.vnum 0))]) := by
  constructor
  · simp [cpV, cpE]
  · have henc :
        mapSetToObject (JVal.map [(JKey.num 1, JVal.prim (JPrim.vnum 0))]) =
          JVal.obj [("__isMap", JVal.prim (JPrim.vbool true)), ("1", JVal.prim (JPrim.vnum 0))] := by
      rw [mapSetToObject, encodeMapEntries, encodeMapEntries, mapSetToObject]
      simp [buildObj, setProp, propName_num_one]
    rw [henc]
    have hdec :
        objectToMapSet
            (JVal.obj [("__isMap", JVal.prim (JPrim.vbool true)), ("1", JVal.prim (JPrim.vnum 0))]) =
          some (JVal.map [(JKey.str "1", JVal.prim (JPrim.vnum 0))]) := by
      rw [objectToMapSet]
      simp only [hasKey, List.any_cons, List.any_nil]
      simp only [show (("__isMap" : String) == "__isMap") = true from rfl, Bool.true_or, if_true]
      rw [decodeMapEntries, decodeMapEntries, decodeMapEntries, objectToMapSet]
      simp [buildObj, setProp, tagStr]
    rw [hdec]
    intro hcon
    simp at hcon


/-- A nested sample value: an object holding a string-keyed Map, a Set
of scalars, and a date. -/
def c1Sample : JVal :=
  JVal.obj
    [("m", JVal.map [(JKey.str "a", JVal.prim (JPrim.vnum 1)),
                     (JKey.str "b", JVal.arr [JVal.date 3])]),
     ("s", JVal.set [JVal.prim (JPrim.vnum 1), JVal.prim (JPrim.vstr "x")]),
     ("d", JVal.date 7)]

/-- Claim C1 (amended): for every value composed of nested plain objects,
arrays, Dates, Maps and Sets in which all Map keys are strings other
than `__isMap` and no plain-object key collides with the tag markers,
`objectToMapSet (mapSetToObject v)` succeeds and returns `v` itself.
(Maps with non-string keys are excluded: encoding coerces such keys to
property-name strings — see the counterexample.) -/
theorem C1_roundtrip_wf (v : JVal) (h : wfV v = true) :
    objectToMapSet (mapSetToObject v) = some v :=
  roundtrip v h

/-- Witness for the amended C1 round trip at a concrete nested value. -/
theorem C1_roundtrip_wf_witness :
    wfV c1Sample = true ∧ objectToMapSet (mapSetToObject c1Sample) = some c1Sample :=
  ⟨by simp [c1Sample, wfV, wfF, wfE, wfL, nodupStr, strIn, noMarkers, strKeys,
      entryNames, keysOf, noPrimDup, primIn, JKey.propName],
   C1_roundtrip_wf c1Sample
     (by simp [c1Sample, wfV, wfF, wfE, wfL, nodupStr, strIn, noMarkers, strKeys,
        entryNames, keysOf, noPrimDup, primIn, JKey.propName])⟩

/-! ### The save-status state machine
(`TeraFileSyncPlugin.saveStateToFile`, lines 877-930, together with the
dirty-tracking subscription installed by `setupStateChangeTracking`,
lines 984-990).

The asynchronous save procedure is split at its suspension points into a
synchronous entry (`saveEntry`: the `onBeforeSave` hook check, the
`saveInProgress` guard, and — when both pass — setting the flag and the
`SAVING` status) and a completion (`saveFinish`: the retry loop either
succeeded or exhausted its attempts, after which the `finally` block
clears the flag).  Container mutations delivered by the adapter
subscription can be interleaved anywhere between these steps. -/

/-- The `SaveStatus` enum of the plugin. -/
inductive SaveStatus where
  | saved
  | unsaved
  | saving
deriving DecidableEq, Repr

/-- The value returned by the host-supplied `onBeforeSave` hook:
literal `true`, a string, or any other value. -/
inductive HookRes where
  | tru
  | str (s : String)
  | other
deriving DecidableEq, Repr

/-- The engine state the claims speak about: the `_saveStatus` field and
the `saveInProgress` flag. -/
structure Eng where
  status : SaveStatus
  saveInProgress : Bool
deriving DecidableEq, Repr

/-- Constructor state: `_saveStatus = SAVED`, no save in flight. -/
def engInit : Eng := ⟨SaveStatus.saved, false⟩

/-- Everything the synchronous entry of `saveStateToFile` produces. -/
structure EntryOut where
  eng : Eng
  /-- `some b`: the call returned `b` before any remote work;
  `none`: the call proceeds into the remote write phase. -/
  earlyReturn : Option Bool
  /-- How many times the `onBeforeSave` hook was invoked. -/
  hookCalls : Nat
  /-- Notifications shown to the user during the entry. -/
  notices : List String
deriving DecidableEq, Repr

/-- Synchronous prefix of `saveStateToFile`: bail out when no Vue
instance is set; invoke the hook and abort (with a notification for a
non-empty string veto) unless it returns literal `true`; bail out when a
save is already in progress; otherwise set the flag and move the status
to `SAVING`. -/
def saveEntry (hasVue : Bool) (hook : HookRes) (e : Eng) : EntryOut :=
  if !hasVue then ⟨e, some false, 0, []⟩
  else
    match hook with
    | .tru =>
      if e.saveInProgress then ⟨e, some false, 1, []⟩
      else ⟨⟨SaveStatus.saving, true⟩, none, 1, []⟩
    | .str s => ⟨e, some false, 1, if s.length > 0 then [s] else []⟩
    | .other => ⟨e, some false, 1, []⟩

/-- Completion of an in-flight save: on success the status becomes
`SAVED` and `true` is returned; when the retries are exhausted the
status becomes `UNSAVED`, a failure notice is shown and `false` is
returned.  The `finally` block clears `saveInProgress` in both cases. -/
def saveFinish (success : Bool) : Eng × Bool × List String :=
  if success then (⟨SaveStatus.saved, false⟩, true, [])
  else (⟨SaveStatus.unsaved, false⟩, false,
    ["Failed to save state to file, hit F12 for debug information."])

/-- The dirty-tracking subscription callback: a container mutation moves
the status to `UNSAVED` unless a save is in progress. -/
def onMutation (e : Eng) : Eng :=
  if e.saveInProgress then e else ⟨SaveStatus.unsaved, e.saveInProgress⟩

/-- Events the engine reacts to: a container mutation, a `saveState`
call (with the hook result it will observe), and the completion of the
in-flight save. -/
inductive Ev where
  | mutate
  | startSave (hasVue : Bool) (hook : HookRes)
  | attemptWrite
  | finishSave (success : Bool)

/-- Engine state extended with observables: the number of save sessions
currently in their remote-write phase and the number of remote write
attempts performed so far. -/
structure Sys where
  eng : Eng
  openSaves : Nat
  writes : Nat
deriving DecidableEq, Repr

/-- Initial system state. -/
def sysInit : Sys := ⟨engInit, 0, 0⟩

/-- One step of the event machine.  A write attempt can only be
performed by a session that is in its remote phase; a completion event
only applies when such a session exists. -/
def stepSys (s : Sys) : Ev → Sys
  | .mutate => { s with eng := onMutation s.eng }
  | .startSave hv hook =>
    let o := saveEntry hv hook s.eng
    match o.earlyReturn with
    | some _ => { s with eng := o.eng }
    | none => { s with eng := o.eng, openSaves := s.openSaves + 1 }
  | .attemptWrite => if s.openSaves > 0 then { s with writes := s.writes + 1 } else s
  | .finishSave ok =>
    if s.openSaves > 0 then
      { s with eng := (saveFinish ok).1, openSaves := s.openSaves - 1 }
    else s

/-- Run the machine from the initial state. -/
def runSys (evs : List Ev) : Sys :=
  evs.foldl stepSys sysInit

/-- Invariant tying the code's `saveInProgress` flag to the `SAVING`
status and to the number of open save sessions. -/
def sysInv (s : Sys) : Prop :=
  s.openSaves = (if s.eng.saveInProgress then 1 else 0) ∧
  s.eng.saveInProgress = (s.eng.status == SaveStatus.saving)

/-- The invariant is preserved by every event. -/
theorem stepSys_inv {s : Sys} (h : sysInv s) (e : Ev) : sysInv (stepSys s e) := by
  obtain ⟨h1, h2⟩ := h
  cases e with
  | mutate =>
    by_cases hp : s.eng.saveInProgress
    · simpa [sysInv, stepSys, onMutation, hp] using ⟨by simpa [hp] using h1, by simpa [hp] using h2⟩
    · simp only [Bool.not_eq_true] at hp
      simp [sysInv, stepSys, onMutation, hp]
      simpa [hp] using h1
  | startSave hv hook =>
    cases hv with
    | false => exact ⟨by simpa [stepSys, saveEntry] using h1, by simpa [stepSys, saveEntry] using h2⟩
    | true =>
      cases hook with
      | tru =>
        by_cases hp : s.eng.saveInProgress
        · exact ⟨by simpa [stepSys, saveEntry, hp] using h1,
            by simpa [stepSys, saveEntry, hp] using h2⟩
        · simp only [Bool.not_eq_true] at hp
          refine ⟨?_, ?_⟩
          · simp [stepSys, saveEntry, hp]
            simpa [hp] using h1
          · simp [stepSys, saveEntry, hp]
      | str s2 =>
        exact ⟨by simpa [stepSys, saveEntry] using h1, by simpa [stepSys, saveEntry] using h2⟩
      | other =>
        exact ⟨by simpa [stepSys, saveEntry] using h1, by simpa [stepSys, saveEntry] using h2⟩
  | attemptWrite =>
    by_cases hw : s.openSaves > 0
    · exact ⟨by simpa [stepSys, hw] using h1, by simpa [stepSys, hw] using h2⟩
    · exact ⟨by simpa [stepSys, hw] using h1, by simpa [stepSys, hw] using h2⟩
  | finishSave ok =>
    by_cases hw : s.openSaves > 0
    · have hos : s.openSaves = 1 := by
        by_cases hp : s.eng.saveInProgress
        · simpa [hp] using h1
        · simp [hp] at h1; omega
      cases ok with
      | true =>
        refine ⟨?_, ?_⟩
        · simp [stepSys, hw, saveFinish, hos]
        · simp [stepSys, hw, saveFinish]
      | false =>
        refine ⟨?_, ?_⟩
        · simp [stepSys, hw, saveFinish, hos]
        · simp [stepSys, hw, saveFinish]
    · exact ⟨by simpa [stepSys, hw] using h1, by simpa [stepSys, hw] using h2⟩

/-- Every reachable system state satisfies the invariant. -/
theorem runSys_inv (evs : List Ev) : sysInv (runSys evs) := by
  rw [runSys]
  induction evs using List.reverseRecOn with
  | nil => exact ⟨by simp [sysInit, engInit], by simp [sysInit, engInit]⟩
  | append_singleton l e ih =>
    rw [List.foldl_append, List.foldl_cons, List.foldl_nil]
    exact stepSys_inv ih e

/-- Claim C2: the save status follows the specified machine — the
initial value is SAVED; the code's `saveInProgress` guard coincides with
`status = SAVING` in every reachable state, so a container mutation
delivered while the status is not SAVING moves it to UNSAVED; an
accepted save start moves it to SAVING; a successful completion moves it
to SAVED; an exhausted-retries completion moves it to UNSAVED. -/
theorem C2_save_status_machine :
    engInit.status = SaveStatus.saved ∧
    (∀ evs : List Ev,
      (runSys evs).eng.saveInProgress = ((runSys evs).eng.status == SaveStatus.saving)) ∧
    (∀ evs : List Ev, (runSys evs).eng.status ≠ SaveStatus.saving →
      (stepSys (runSys evs) Ev.mutate).eng.status = SaveStatus.unsaved) ∧
    (∀ (hv : Bool) (hook : HookRes) (e : Eng),
      (saveEntry hv hook e).earlyReturn = none →
      (saveEntry hv hook e).eng = ⟨SaveStatus.saving, true⟩) ∧
    (saveFinish true).1.status = SaveStatus.saved ∧
    (saveFinish false).1.status = SaveStatus.unsaved := by
  refine ⟨rfl, ?_, ?_, ?_, rfl, rfl⟩
  · intro evs
    exact (runSys_inv evs).2
  · intro evs h
    have hflag : (runSys evs).eng.saveInProgress = false := by
      rw [(runSys_inv evs).2]
      simp [h]
    simp [stepSys, onMutation, hflag]
  · intro hv hook e hnone
    cases hv with
    | false => simp [saveEntry] at hnone
    | true =>
      cases hook with
      | tru =>
        by_cases hp : e.saveInProgress
        · simp [saveEntry, hp] at hnone
        · simp only [Bool.not_eq_true] at hp
          simp [saveEntry, hp]
      | str s => simp [saveEntry] at hnone
      | other => simp [saveEntry] at hnone

/-- Witness for C2 at concrete inputs: a mutation in the initial state
flips the status to UNSAVED, and an accepted save start moves it to
SAVING. -/
theorem C2_save_status_machine_witness :
    (stepSys (runSys []) Ev.mutate).eng.status = SaveStatus.unsaved ∧
    (saveEntry true HookRes.tru ⟨SaveStatus.saved, false⟩).eng = ⟨SaveStatus.saving, true⟩ := by
  have h := C2_save_status_machine
  exact ⟨h.2.2.1 [] (by decide), h.2.2.2.1 true HookRes.tru ⟨SaveStatus.saved, false⟩ (by decide)⟩

/-- Claim C3: a `saveState` call that arrives while a save is in flight
returns `false` immediately, changes nothing, performs no remote write
and opens no session; and at most one save session is ever in its
remote-write phase. -/
theorem C3_single_flight :
    (∀ (s : Sys) (hv : Bool) (hook : HookRes),
      s.eng.saveInProgress = true →
        (saveEntry hv hook s.eng).earlyReturn = some false ∧
        (saveEntry hv hook s.eng).eng = s.eng ∧
        (stepSys s (Ev.startSave hv hook)).writes = s.writes ∧
        (stepSys s (Ev.startSave hv hook)).openSaves = s.openSaves) ∧
    (∀ evs : List Ev, (runSys evs).openSaves ≤ 1) := by
  constructor
  · intro s hv hook hp
    have hentry : saveEntry hv hook s.eng = ⟨s.eng, some false, if hv then 1 else 0,
        match hook with
        | HookRes.str m => if hv then (if m.length > 0 then [m] else []) else []
        | _ => []⟩ := by
      cases hv <;> cases hook <;> simp [saveEntry, hp]
    refine ⟨by rw [hentry], by rw [hentry], ?_, ?_⟩
    · simp [stepSys, hentry]
    · simp [stepSys, hentry]
  · intro evs
    have h := (runSys_inv evs).1
    rw [h]
    by_cases hp : (runSys evs).eng.saveInProgress <;> simp [hp]

/-- Witness for C3: a second save started while one is in flight is
rejected without a write, and a trace with two starts keeps at most one
session open. -/
theorem C3_single_flight_witness :
    (saveEntry true HookRes.tru ⟨SaveStatus.saving, true⟩).earlyReturn = some false ∧
    (runSys [Ev.startSave true HookRes.tru, Ev.startSave true HookRes.tru]).openSaves ≤ 1 := by
  have h := C3_single_flight
  exact ⟨(h.1 ⟨⟨SaveStatus.saving, true⟩, 1, 0⟩ true HookRes.tru rfl).1,
    h.2 [Ev.startSave true HookRes.tru, Ev.startSave true HookRes.tru]⟩

/-- Claim C6: when the `onBeforeSave` hook returns anything other than
literal `true`, the save aborts before any remote call with no status
transition, returns `false`, shows the veto text exactly when it is a
non-empty string, and stays silent otherwise. -/
theorem C6_veto_aborts (e : Eng) (hook : HookRes) (h : hook ≠ HookRes.tru) :
    (saveEntry true hook e).earlyReturn = some false ∧
    (saveEntry true hook e).eng = e ∧
    (∀ s : Sys, (stepSys s (Ev.startSave true hook)).writes = s.writes ∧
      (stepSys s (Ev.startSave true hook)).openSaves = s.openSaves) ∧
    (∀ m, hook = HookRes.str m → 0 < m.length → (saveEntry true hook e).notices = [m]) ∧
    (hook = HookRes.other → (saveEntry true hook e).notices = []) ∧
    (∀ m, hook = HookRes.str m → m.length = 0 → (saveEntry true hook e).notices = []) := by
  cases hook with
  | tru => exact absurd rfl h
  | str m =>
    refine ⟨by simp [saveEntry], by simp [saveEntry], ?_, ?_, ?_, ?_⟩
    · intro s
      constructor <;> simp [stepSys, saveEntry]
    · intro m2 hm hlen
      cases hm
      simp [saveEntry, hlen]
    · intro hc
      cases hc
    · intro m2 hm hlen
      cases hm
      simp [saveEntry, hlen]
  | other =>
    refine ⟨by simp [saveEntry], by simp [saveEntry], ?_, ?_, ?_, ?_⟩
    · intro s
      constructor <;> simp [stepSys, saveEntry]
    · intro m2 hm
      cases hm
    · intro _
      simp [saveEntry]
    · intro m2 hm
      cases hm

/-- Witness for C6: Scenario C — the veto string "Validation failed"
aborts the save, returns false, leaves the state untouched and shows
exactly that text. -/
theorem C6_veto_aborts_witness :
    (saveEntry true (HookRes.str "Validation failed") engInit).earlyReturn = some false ∧
    (saveEntry true (HookRes.str "Validation failed") engInit).eng = engInit ∧
    (saveEntry true (HookRes.str "Validation failed") engInit).notices = ["Validation failed"] := by
  have h := C6_veto_aborts engInit (HookRes.str "Validation failed") (by decide)
  exact ⟨h.1, h.2.1, h.2.2.2.1 "Validation failed" rfl (by decide)⟩

/-- Claim C10: `saveStateToFile` evaluates the `onBeforeSave` hook
before the `saveInProgress` guard, so on every call — including one made
while a save is in flight — the hook runs exactly once and a non-empty
string veto still shows its notification. -/
theorem C10_hook_before_flag (e : Eng) (hook : HookRes) :
    (saveEntry true hook e).hookCalls = 1 ∧
    (∀ m, hook = HookRes.str m → 0 < m.length → (saveEntry true hook e).notices = [m]) := by
  constructor
  · cases hook with
    | tru => by_cases hp : e.saveInProgress <;> simp [saveEntry, hp]
    | str m => simp [saveEntry]
    | other => simp [saveEntry]
  · intro m hm hlen
    cases hm
    simp [saveEntry, hlen]

/-- Witness for C10: with a save already in flight, the hook still runs
exactly once and its veto message is shown. -/
theorem C10_hook_before_flag_witness :
    (saveEntry true (HookRes.str "stop") ⟨SaveStatus.saving, true⟩).hookCalls = 1 ∧
    (saveEntry true (HookRes.str "stop") ⟨SaveStatus.saving, true⟩).notices = ["stop"] := by
  have h := C10_hook_before_flag ⟨SaveStatus.saving, true⟩ (HookRes.str "stop")
  exact ⟨h.1, h.2 "stop" rfl (by decide)⟩

/-! ### The retry executor

Modelled from the spec: the retry executor itself is the external
`p-retry` npm dependency, whose code is not part of this repository —
only its call sites are (`saveStateToFile`, `loadStateFromFile`,
`getStorageFileName`).  Following spec section 4.2, `run(op, policy)`
executes `op` up to `policy.attempts` times, waits
`initialDelay * backoffFactor ^ (attemptIndex - 1)` between consecutive
attempts, and re-throws the last error after the final attempt. -/

/-- Retry policy: attempts count, initial delay (ms), backoff factor. -/
structure RetryPolicy where
  attempts : Nat
  initialDelay : Nat
  backoffFactor : Nat
deriving DecidableEq, Repr

/-- Core retry loop: attempt number `i` (1-based), `rem` further
attempts allowed after this one.  Returns the final outcome, the number
of executions performed, and the delays waited between consecutive
attempts. -/
def retryAux (op : Nat → Except String (Option JVal)) (d f : Nat) :
    Nat → Nat → Except String (Option JVal) × Nat × List Nat
  | i, rem =>
    match op i with
    | .ok a => (.ok a, 1, [])
    | .error e =>
      match rem with
      | 0 => (.error e, 1, [])
      | r + 1 =>
        let out := retryAux op d f (i + 1) r
        (out.1, out.2.1 + 1, d * f ^ (i - 1) :: out.2.2)

/-- Modelled from the spec: `RetryExecutor.run` — execute up to
`policy.attempts` times with exponential backoff, re-throwing the last
error. -/
def retryRun (p : RetryPolicy) (op : Nat → Except String (Option JVal)) :
    Except String (Option JVal) × Nat × List Nat :=
  retryAux op p.initialDelay p.backoffFactor 1 (p.attempts - 1)

/-- The retry options used by the save and load paths in
`saveStateToFile` / `loadStateFromFile` (`retries: 3` further attempts
after the first, i.e. 4 executions; 1000 ms; factor 2). -/
def savePathPolicy : RetryPolicy := ⟨4, 1000, 2⟩

/-- Behaviour of the core loop on an operation that fails on every
execution. -/
theorem retryAux_always_fails (op : Nat → Except String (Option JVal)) (err : Nat → String)
    (hop : ∀ i, op i = .error (err i)) (d f : Nat) :
    ∀ rem i, 0 < i →
      retryAux op d f i rem =
        (.error (err (i + rem)), rem + 1,
          (List.range rem).map (fun k => d * f ^ (i - 1 + k))) := by
  intro rem
  induction rem with
  | zero =>
    intro i hi
    rw [retryAux, hop i]
    simp
  | succ r ih =>
    intro i hi
    rw [retryAux, hop i]
    simp only
    rw [ih (i + 1) (by omega)]
    simp only [List.range_succ_eq_map, List.map_cons, List.map_map]
    have h1 : i + 1 + r = i + (r + 1) := by omega
    have h3 : (fun k => d * f ^ (i + 1 - 1 + k)) =
        ((fun k => d * f ^ (i - 1 + k)) ∘ Nat.succ) := by
      funext k
      simp [Function.comp]
      have he : i - 1 + (k + 1) = i + k := by omega
      rw [he]
      exact Or.inl rfl
    rw [h1, h3]
    simp

/-- Claim C4: for an operation wrapped in the retry executor that fails
on every execution, exactly `policy.attempts` executions occur, the wait
before retry number `k` is `initialDelay * backoffFactor ^ k` (i.e.
`initialDelay * backoffFactor ^ (attemptIndex - 1)` counting attempts
from 1), and the last error is re-thrown to the caller. -/
theorem C4_retry_bound (p : RetryPolicy) (op : Nat → Except String (Option JVal))
    (err : Nat → String) (hop : ∀ i, op i = Except.error (err i)) (hp : 1 ≤ p.attempts) :
    retryRun p op =
      (Except.error (err p.attempts), p.attempts,
        (List.range (p.attempts - 1)).map (fun k => p.initialDelay * p.backoffFactor ^ k)) := by
  rw [retryRun,
    retryAux_always_fails op err hop p.initialDelay p.backoffFactor (p.attempts - 1) 1 (by omega)]
  have h1 : 1 + (p.attempts - 1) = p.attempts := by omega
  have h2 : p.attempts - 1 + 1 = p.attempts := by omega
  rw [h1, h2]
  simp

/-- Witness for C4: the save-path policy (4 executions, 1000 ms initial
delay, factor 2) on an always-failing operation performs exactly 4
executions with waits 1000, 2000, 4000 ms and re-throws the error. -/
theorem C4_retry_bound_witness :
    retryRun savePathPolicy (fun _ => Except.error "boom") =
      (Except.error "boom", 4, [1000, 2000, 4000]) := by
  have h := C4_retry_bound savePathPolicy (fun _ => Except.error "boom")
    (fun _ => "boom") (fun _ => rfl) (by decide)
  rw [h]
  rfl

/-! ### Lazy file provisioning
(`TeraFileSyncPlugin.getStorageFileName`, lines 799-839).

The function looks the storage key up in `$tera.project.temp`; when
absent it generates a fresh `data-<keyPrefix>-<nanoid>.json` name,
creates the remote file (retried), writes the current state as its
initial content (retried), and records the key-to-name mapping with
`setProjectState` (retried).  Each retried sub-step is abstracted to its
overall outcome; a failed sub-step throws out of the function. -/

/-- Overall outcome of each retried provisioning sub-step. -/
structure ProvOutcomes where
  createOk : Bool
  initWriteOk : Bool
  mappingOk : Bool
deriving DecidableEq, Repr

/-- The remote project context: the `project.temp` mapping and the set
of created project files (by name, in creation order). -/
structure ProvState where
  temp : List (String × String)
  files : List String
deriving DecidableEq, Repr

/-- Association lookup (`project.temp[key]`). -/
def lookupStr : List (String × String) → String → Option String
  | [], _ => none
  | kv :: rest, k => if kv.1 == k then some kv.2 else lookupStr rest k

/-- Association update (`setProjectState('temp.' + key, name)`). -/
def putStr (l : List (String × String)) (k v : String) : List (String × String) :=
  if l.any (fun kv => kv.1 == k) then
    l.map (fun kv => if kv.1 == k then (kv.1, v) else kv)
  else l ++ [(k, v)]

/-- The generated storage file name `data-<keyPrefix>-<nanoid>.json`. -/
def mkDataFileName (pfx freshId : String) : String :=
  "data-" ++ pfx ++ "-" ++ freshId ++ ".json"

/-- `getStorageFileName`: return the mapped name when one exists;
otherwise provision — create the file, write the initial content, then
record the mapping — propagating the first failing sub-step as an error
(`none`) and recording the mapping only after all three succeeded. -/
def getStorageFileName (pfx key freshId : String) (oc : ProvOutcomes) (st : ProvState) :
    Option String × ProvState :=
  match lookupStr st.temp key with
  | some name => (some name, st)
  | none =>
    let name := mkDataFileName pfx freshId
    if !oc.createOk then (none, st)
    else
      let st1 : ProvState := ⟨st.temp, st.files ++ [name]⟩
      if !oc.initWriteOk then (none, st1)
      else if !oc.mappingOk then (none, st1)
      else (some name, ⟨putStr st1.temp key name, st1.files⟩)

/-- A key appended to a list that lacks it is found. -/
theorem lookupStr_append_last (k v : String) :
    ∀ (l : List (String × String)), l.any (fun kv => kv.1 == k) = false →
      lookupStr (l ++ [(k, v)]) k = some v := by
  intro l
  induction l with
  | nil => intro _; simp [lookupStr]
  | cons kv rest ih =>
    intro h
    simp only [List.any_cons, Bool.or_eq_false_iff] at h
    rw [List.cons_append, lookupStr, if_neg (by simp [h.1])]
    exact ih h.2

/-- Overwriting a present key makes its new value readable. -/
theorem lookupStr_overwrite (k v : String) :
    ∀ (l : List (String × String)), l.any (fun kv => kv.1 == k) = true →
      lookupStr (l.map (fun kv => if kv.1 == k then (kv.1, v) else kv)) k = some v := by
  intro l
  induction l with
  | nil => intro h; simp at h
  | cons kv rest ih =>
    intro h
    by_cases hk : kv.1 == k
    · rw [List.map_cons, if_pos hk, lookupStr, if_pos hk]
    · simp only [List.any_cons] at h
      rw [List.map_cons, if_neg hk, lookupStr, if_neg hk]
      apply ih
      rcases Bool.or_eq_true_iff.mp h with h1 | h2
      · exact absurd h1 hk
      · exact h2

/-- Updating a key makes it readable. -/
theorem lookupStr_putStr (l : List (String × String)) (k v : String) :
    lookupStr (putStr l k v) k = some v := by
  unfold putStr
  by_cases hany : l.any (fun kv => kv.1 == k)
  · rw [if_pos hany]
    exact lookupStr_overwrite k v l hany
  · rw [if_neg hany]
    exact lookupStr_append_last k v l (Bool.eq_false_iff.mpr hany)

/-- The generated file name determines the generated id. -/
theorem mkDataFileName_inj {pfx a b : String} (h : mkDataFileName pfx a = mkDataFileName pfx b) :
    a = b := by
  unfold mkDataFileName at h
  have hd := congrArg String.data h
  simp only [String.data_append] at hd
  have h2 := List.append_cancel_right hd
  have h3 := List.append_cancel_left h2
  exact String.ext h3

/-- A failing sub-step makes provisioning throw and leaves
`project.temp` untouched. -/
theorem getStorageFileName_fail (pfx key freshId : String) (oc : ProvOutcomes) (st : ProvState)
    (habsent : lookupStr st.temp key = none)
    (hfail : oc.createOk = false ∨ oc.initWriteOk = false ∨ oc.mappingOk = false) :
    (getStorageFileName pfx key freshId oc st).1 = none ∧
    (getStorageFileName pfx key freshId oc st).2.temp = st.temp := by
  unfold getStorageFileName
  rw [habsent]
  rcases hfail with h | h | h
  · simp [h]
  · by_cases hc : oc.createOk <;> simp [hc, h]
  · by_cases hc : oc.createOk <;> by_cases hi : oc.initWriteOk <;> simp [hc, hi, h]

/-- With no mapping recorded and every sub-step succeeding, provisioning
creates the generated file, records the mapping and returns the
generated name. -/
theorem getStorageFileName_success (pfx key freshId : String) (st : ProvState)
    (habsent : lookupStr st.temp key = none) :
    getStorageFileName pfx key freshId ⟨true, true, true⟩ st =
      (some (mkDataFileName pfx freshId),
        ⟨putStr st.temp key (mkDataFileName pfx freshId),
         st.files ++ [mkDataFileName pfx freshId]⟩) := by
  unfold getStorageFileName
  rw [habsent]
  simp

/-- Claim C5: provisioning records the key-to-name mapping only after
file creation, initial-content write and mapping write all succeeded; a
failing sub-step propagates the error and records no mapping, a
subsequent call re-attempts full provisioning with a fresh generated
name (distinct from the half-created one), and an existing mapping is
returned as is without creating any file. -/
theorem C5_provisioning (pfx key id1 id2 : String) (oc : ProvOutcomes) (st : ProvState)
    (habsent : lookupStr st.temp key = none)
    (hfail : oc.createOk = false ∨ oc.initWriteOk = false ∨ oc.mappingOk = false) :
    (getStorageFileName pfx key id1 oc st).1 = none ∧
    lookupStr (getStorageFileName pfx key id1 oc st).2.temp key = none ∧
    (getStorageFileName pfx key id2 ⟨true, true, true⟩
        (getStorageFileName pfx key id1 oc st).2).1 = some (mkDataFileName pfx id2) ∧
    (getStorageFileName pfx key id2 ⟨true, true, true⟩
        (getStorageFileName pfx key id1 oc st).2).2.files =
      (getStorageFileName pfx key id1 oc st).2.files ++ [mkDataFileName pfx id2] ∧
    lookupStr (getStorageFileName pfx key id2 ⟨true, true, true⟩
        (getStorageFileName pfx key id1 oc st).2).2.temp key = some (mkDataFileName pfx id2) ∧
    (id1 ≠ id2 → mkDataFileName pfx id2 ≠ mkDataFileName pfx id1) ∧
    (∀ (st2 : ProvState) (n : String), lookupStr st2.temp key = some n →
      getStorageFileName pfx key id1 oc st2 = (some n, st2)) := by
  obtain ⟨hres, htemp⟩ := getStorageFileName_fail pfx key id1 oc st habsent hfail
  have habsent2 : lookupStr (getStorageFileName pfx key id1 oc st).2.temp key = none := by
    rw [htemp]; exact habsent
  have hsucc := getStorageFileName_success pfx key id2 (getStorageFileName pfx key id1 oc st).2
    habsent2
  refine ⟨hres, habsent2, ?_, ?_, ?_, ?_, ?_⟩
  · rw [hsucc]
  · rw [hsucc]
  · rw [hsucc]
    exact lookupStr_putStr _ key _
  · intro hne hcon
    exact hne (mkDataFileName_inj hcon).symm
  · intro st2 n hsome
    unfold getStorageFileName
    rw [hsome]

/-- Witness for C5 at concrete inputs: the initial-content write fails,
no mapping is recorded; the retried call creates and records a fresh
file. -/
theorem C5_provisioning_witness :
    (getStorageFileName "t" "k" "A" ⟨true, false, true⟩ ⟨[], []⟩).1 = none ∧
    lookupStr (getStorageFileName "t" "k" "A" ⟨true, false, true⟩ ⟨[], []⟩).2.temp "k" = none ∧
    (getStorageFileName "t" "k" "B" ⟨true, true, true⟩
        (getStorageFileName "t" "k" "A" ⟨true, false, true⟩ ⟨[], []⟩).2).1 =
      some "data-t-B.json" ∧
    "data-t-B.json" ≠ "data-t-A.json" := by
  have h := C5_provisioning "t" "k" "A" "B" ⟨true, false, true⟩ ⟨[], []⟩ (by decide)
    (Or.inr (Or.inl rfl))
  refine ⟨h.1, h.2.1, ?_, ?_⟩
  · exact h.2.2.1.trans (by rfl)
  · exact h.2.2.2.2.2.1 (by decide)

/-! ### Store adapter mutation filters
(`VuexAdapter.subscribe` lines 468-473 with `updateSaveStatus` line 465;
`PiniaAdapter.subscribe` lines 512-517 with `updateSaveStatus` line
509). -/

/-- A Vuex mutation as seen by `store.subscribe`. -/
structure VuexMutation where
  mutType : String
deriving DecidableEq, Repr

/-- The mutation committed by `VuexAdapter.updateSaveStatus`
(`commit('__tera_file_sync/updateSaveStatus', status)`). -/
def vuexStatusMutation : VuexMutation := ⟨"__tera_file_sync/updateSaveStatus"⟩

/-- Character-list model of `String.prototype.startsWith`. -/
def listStartsWith : List Char → List Char → Bool
  | _, [] => true
  | [], _ :: _ => false
  | c :: cs, d :: ds => c == d && listStartsWith cs ds

/-- String model of `String.prototype.startsWith`. -/
def strStartsWith (s p : String) : Bool :=
  listStartsWith s.toList p.toList

/-- `VuexAdapter.subscribe` forwards a mutation to the engine callback
unless its type starts with the plugin module namespace. -/
def vuexForwards (m : VuexMutation) : Bool :=
  !(strStartsWith m.mutType "__tera_file_sync/")

/-- A Pinia subscription event (`mutation.events.key`). -/
structure PiniaEvents where
  key : String
deriving DecidableEq, Repr

/-- A Pinia mutation as seen by `store.$subscribe`; `events` may be
absent. -/
structure PiniaMutation where
  events : Option PiniaEvents
deriving DecidableEq, Repr

/-- The mutation produced by `PiniaAdapter.updateSaveStatus`
(`store.saveStatus = status`). -/
def piniaStatusMutation : PiniaMutation := ⟨some ⟨"saveStatus"⟩⟩

/-- `PiniaAdapter.subscribe` forwards a mutation unless its events carry
the `saveStatus` key. -/
def piniaForwards (m : PiniaMutation) : Bool :=
  match m.events with
  | some ev => !(ev.key == "saveStatus")
  | none => true

/-- Delivery of a Vuex mutation through the adapter subscription to the
engine's dirty-tracking callback. -/
def deliverVuex (e : Eng) (m : VuexMutation) : Eng :=
  if vuexForwards m then onMutation e else e

/-- Delivery of a Pinia mutation through the adapter subscription to the
engine's dirty-tracking callback. -/
def deliverPinia (e : Eng) (m : PiniaMutation) : Eng :=
  if piniaForwards m then onMutation e else e

/-- Claim C8: for both adapter variants the mutation caused by the
engine's own `updateSaveStatus` call is filtered out by `subscribe` and
never reaches the engine callback, so mirroring the save status never
itself changes the engine state (in particular never flips it to
UNSAVED). -/
theorem C8_self_exclusion :
    vuexForwards vuexStatusMutation = false ∧
    piniaForwards piniaStatusMutation = false ∧
    (∀ e : Eng, deliverVuex e vuexStatusMutation = e) ∧
    (∀ e : Eng, deliverPinia e piniaStatusMutation = e) := by
  refine ⟨by decide, by decide, ?_, ?_⟩
  · intro e
    rw [deliverVuex, if_neg (by decide)]
  · intro e
    rw [deliverPinia, if_neg (by decide)]

/-! ### The load path
(`api.getFileContent`, `loadStateFromFile` lines 841-875,
`loadAndApplyStateFromFile` lines 626-655).

Each retry attempt of the load closure (file-name resolution plus
`api.getFileContent`) is abstracted to its outcome: `.ok none` models a
404 mapped to `null`, `.ok (some v)` a parsed body, `.error msg` a
thrown error carrying its message.  `uiProgress` and `replaceState` are
assumed not to throw, matching their use as plain UI/store calls. -/

/-- Character-list model of `String.prototype.includes`. -/
def listIncludes : List Char → List Char → Bool
  | [], p => listStartsWith [] p
  | c :: cs, p => listStartsWith (c :: cs) p || listIncludes cs p

/-- String model of `String.prototype.includes`. -/
def jsIncludes (s sub : String) : Bool :=
  listIncludes s.toList sub.toList

/-- JavaScript falsiness of a decoded JSON value (`!fileContent`). -/
def jsFalsy : JVal → Bool
  | .prim .vnull => true
  | .prim (.vbool b) => !b
  | .prim (.vnum n) => n == 0
  | .prim (.vstr s) => s == ""
  | _ => false

/-- A fetch response as consumed by `api.getFileContent`: HTTP status,
the `ok` flag, and the JSON body (`none` when `response.json()`
throws). -/
structure FetchResp where
  status : Nat
  ok : Bool
  parsed : Option JVal

/-- `api.getFileContent`: missing token is a hard error before any
classification; 404 maps to `null`; any other non-ok status throws; an
unparsable body throws; otherwise the parsed JSON is returned. -/
def getFileContent (tokenPresent : Bool) (filePath : String) (resp : FetchResp) :
    Except String (Option JVal) :=
  if !tokenPresent then
    .error "Authorization token is missing. Please log in again."
  else if resp.status == 404 then .ok none
  else if !resp.ok then
    .error ("Failed to get file content for \"" ++ filePath ++ "\". Status: " ++
      toString resp.status)
  else
    match resp.parsed with
    | none => .error ("Failed to parse JSON content from file \"" ++ filePath ++ "\".")
    | some v => .ok (some v)

/-- `loadStateFromFile`: run the load closure through the retry executor
(`retries: 3`, 1000 ms, factor 2 — the same options record as the save
path); a falsy/absent body is the normal empty case; a thrown error
whose message speaks of a missing or corrupt file is treated the same
way silently, any other error produces the failure notice; a truthy body
first mirrors `SAVED` and is returned.  Result: the loaded content, the
status updates performed, and the notifications shown. -/
def loadStateFromFile (att : Nat → Except String (Option JVal)) :
    Option JVal × List SaveStatus × List String :=
  match (retryRun savePathPolicy att).1 with
  | .ok content =>
    match content with
    | none => (none, [], [])
    | some v =>
      if jsFalsy v then (none, [], [])
      else (some v, [SaveStatus.saved], [])
  | .error e =>
    if jsIncludes e "not found" || jsIncludes e "Unexpected end of JSON input" then
      (none, [], [])
    else
      (none, [], ["Failed to load state from file, using default state"])

/-- `loadAndApplyStateFromFile`: without a Vue instance return `false`;
with file data decode it, replace the store state and mirror `SAVED`
(a decoder throw is caught, noticed, and returns `false`); with no file
data leave the store untouched, mirror `UNSAVED` and still return
`true`.  Result: the returned Bool, the state handed to `replaceState`
(if any), the status updates performed, and the notifications shown. -/
def loadAndApplyStateFromFile (hasVue : Bool) (att : Nat → Except String (Option JVal)) :
    Bool × Option JVal × List SaveStatus × List String :=
  if !hasVue then (false, none, [], [])
  else
    let out := loadStateFromFile att
    match out.1 with
    | some v =>
      match objectToMapSet v with
      | some parsed => (true, some parsed, out.2.1 ++ [SaveStatus.saved], out.2.2)
      | none => (false, none, out.2.1, out.2.2 ++ ["Error loading state from file."])
    | none => (true, none, out.2.1 ++ [SaveStatus.unsaved], out.2.2)

/-- An operation succeeding on its first execution short-circuits the
retry loop. -/
theorem retryRun_first_ok (att : Nat → Except String (Option JVal)) (a : Option JVal)
    (h : att 1 = Except.ok a) : (retryRun savePathPolicy att).1 = Except.ok a := by
  rw [retryRun, retryAux, h]

/-- Claim C7: a load that finds no file content (404 mapped to null on
every attempt, or the empty-body parse error) returns `true`, hands
nothing to `replaceState`, and sets the status to UNSAVED; any other
load failure shows the failure notice, still returns `true` without
touching the in-memory state, and likewise ends UNSAVED; an error
message marking a missing/corrupt file behaves like the no-content
case. -/
theorem C7_load_not_found (att : Nat → Except String (Option JVal)) :
    ((∀ i, att i = Except.ok none) →
      loadAndApplyStateFromFile true att = (true, none, [SaveStatus.unsaved], [])) ∧
    ((∀ i, att i = Except.error
        "Failed to parse JSON content from file \"data-tool-abc.json\".") →
      loadAndApplyStateFromFile true att =
        (true, none, [SaveStatus.unsaved],
          ["Failed to load state from file, using default state"])) ∧
    (∀ e, jsIncludes e "not found" = false →
      jsIncludes e "Unexpected end of JSON input" = false →
      (∀ i, att i = Except.error e) →
      loadAndApplyStateFromFile true att =
        (true, none, [SaveStatus.unsaved],
          ["Failed to load state from file, using default state"])) ∧
    (∀ e, (jsIncludes e "not found" = true ∨ jsIncludes e "Unexpected end of JSON input" = true) →
      (∀ i, att i = Except.error e) →
      loadAndApplyStateFromFile true att = (true, none, [SaveStatus.unsaved], [])) := by
  have herr : ∀ e, (∀ i, att i = Except.error e) →
      (retryRun savePathPolicy att).1 = Except.error e := by
    intro e hop
    rw [retryRun, retryAux_always_fails att (fun _ => e) hop _ _ _ 1 (by omega)]
  refine ⟨?_, ?_, ?_, ?_⟩
  · intro hop
    have h1 := retryRun_first_ok att none (hop 1)
    simp [loadAndApplyStateFromFile, loadStateFromFile, h1]
  · intro hop
    have h1 := herr _ hop
    simp [loadAndApplyStateFromFile, loadStateFromFile, h1]
    constructor <;> decide
  · intro e hnf hue hop
    have h1 := herr e hop
    simp [loadAndApplyStateFromFile, loadStateFromFile, h1, hnf, hue]
  · intro e hmark hop
    have h1 := herr e hop
    rcases hmark with hm | hm
    · simp [loadAndApplyStateFromFile, loadStateFromFile, h1, hm]
    · simp [loadAndApplyStateFromFile, loadStateFromFile, h1, hm]

/-- Witness for C7: every attempt reports 404 (null content) — the load
returns true, replaces nothing, and the status update is UNSAVED. -/
theorem C7_load_not_found_witness :
    loadAndApplyStateFromFile true (fun _ => Except.ok none) =
      (true, none, [SaveStatus.unsaved], []) :=
  (C7_load_not_found (fun _ => Except.ok none)).1 (fun _ => rfl)

/-! ### The state snapshot taken at the start of a save
(`saveStateToFile` line 895 `const state = this.adapter.getState()`;
`VuexAdapter.getState` lines 452-455).

`getState` for the Vuex adapter is a rest-destructuring of
`store.state`: a NEW top-level object whose properties reference the
same nested objects as the live state.  `mapSetToObject(state)` is then
re-evaluated inside every retry attempt, reading through those shared
references.  This is modelled two-level: the container state is a list
of top-level bindings (property name to heap reference) over a heap of
cells; the snapshot copies the bindings (minus the plugin module) but
shares the heap. -/

/-- The heap of nested-object cells, each collapsed to a scalar. -/
def Heap : Type := Nat → Int

/-- In-place update of one heap cell. -/
def updateHeap (h : Heap) (r : Nat) (v : Int) : Heap :=
  fun r2 => if r2 == r then v else h r2

/-- `VuexAdapter.getState`: copy the top-level bindings, dropping the
plugin's own module, sharing all referenced cells. -/
def getStateSnapshot (top : List (String × Nat)) : List (String × Nat) :=
  top.filter (fun kv => !(kv.1 == "__tera_file_sync"))

/-- Reading a snapshot through the heap, as the per-attempt
`mapSetToObject(state)` does (scalar leaves encode to themselves). -/
def deepValue (h : Heap) (snap : List (String × Nat)) : List (String × Int) :=
  snap.map (fun kv => (kv.1, h kv.2))

/-- A container mutation delivered while the save is in flight: either
an in-place write to a nested cell, or a top-level assignment binding a
property to a freshly allocated cell. -/
inductive Mut where
  | writeCell (r : Nat) (v : Int)
  | bindTop (k : String) (r : Nat) (v : Int)

/-- The heap cell a mutation writes. -/
def mutRef : Mut → Nat
  | .writeCell r _ => r
  | .bindTop _ r _ => r

/-- Applying one mutation to the live container. -/
def applyMut (st : List (String × Nat) × Heap) : Mut → List (String × Nat) × Heap
  | .writeCell r v => (st.1, updateHeap st.2 r v)
  | .bindTop k r v =>
    ((if st.1.any (fun kv => kv.1 == k) then
        st.1.map (fun kv => if kv.1 == k then (kv.1, r) else kv)
      else st.1 ++ [(k, r)]), updateHeap st.2 r v)

/-- Applying a batch of mutations. -/
def applyMuts (st : List (String × Nat) × Heap) (ms : List Mut) : List (String × Nat) × Heap :=
  ms.foldl applyMut st

/-- The contents written by the save's successive remote write attempts:
before each attempt a batch of container mutations may run, then the
attempt encodes the snapshot through the current heap. -/
def saveWritesAux (snap : List (String × Nat)) :
    List (String × Nat) × Heap → List (List Mut) → List (List (String × Int))
  | _, [] => []
  | st, g :: gs =>
    let st2 := applyMuts st g
    deepValue st2.2 snap :: saveWritesAux snap st2 gs

/-- All write attempts of one save call, starting from the live state
`(top0, h0)` with the snapshot taken at entry. -/
def saveWrites (top0 : List (String × Nat)) (h0 : Heap) (groups : List (List Mut)) :
    List (List (String × Int)) :=
  saveWritesAux (getStateSnapshot top0) (top0, h0) groups

/-- A heap update outside the snapshot's references does not change what
the snapshot reads. -/
theorem deepValue_updateHeap (snap : List (String × Nat)) (h : Heap) (r : Nat) (v : Int)
    (hout : (snap.map Prod.snd).contains r = false) :
    deepValue (updateHeap h r v) snap = deepValue h snap := by
  induction snap with
  | nil => rfl
  | cons kv rest ih =>
    simp only [List.map_cons, List.contains_cons, Bool.or_eq_false_iff] at hout
    simp only [deepValue, List.map_cons] at ih ⊢
    rw [ih hout.2]
    have hne : (kv.2 == r) = false := by
      by_contra hb
      rw [Bool.not_eq_false, beq_iff_eq] at hb
      have h1 := hout.1
      rw [hb] at h1
      simp at h1
    simp [updateHeap, hne]

/-- A batch of mutations that never writes a snapshot-shared cell leaves
the snapshot's deep value unchanged. -/
theorem deepValue_applyMuts (snap : List (String × Nat)) :
    ∀ (ms : List Mut) (st : List (String × Nat) × Heap),
      (∀ m ∈ ms, (snap.map Prod.snd).contains (mutRef m) = false) →
      deepValue (applyMuts st ms).2 snap = deepValue st.2 snap := by
  intro ms
  induction ms with
  | nil => intro st _; rfl
  | cons m rest ih =>
    intro st hsafe
    rw [applyMuts, List.foldl_cons]
    have hstep : deepValue (applyMut st m).2 snap = deepValue st.2 snap := by
      cases m with
      | writeCell r v =>
        exact deepValue_updateHeap snap st.2 r v (hsafe (Mut.writeCell r v) (by simp))
      | bindTop k r v =>
        exact deepValue_updateHeap snap st.2 r v (hsafe (Mut.bindTop k r v) (by simp))
    rw [show List.foldl applyMut (applyMut st m) rest = applyMuts (applyMut st m) rest from rfl]
    rw [ih (applyMut st m) (fun m2 hm2 => hsafe m2 (by simp [hm2]))]
    exact hstep

/-- Claim C9 counterexample: a mutation of a nested cell shared with the
snapshot, run between the snapshot and the write attempt, changes the
written content — the write is not the snapshot value taken at the start
of the call. -/
theorem C9_nested_mutation_visible :
    deepValue (fun _ => 1) (getStateSnapshot [("a", 0)]) = [("a", 1)] ∧
    saveWrites [("a", 0)] (fun _ => 1) [[Mut.writeCell 0 42]] = [[("a", 42)]] ∧
    saveWrites [("a", 0)] (fun _ => 1) [[]] = [[("a", 1)]] ∧
    ([[(("a" : String), (42 : Int))]] : List (List (String × Int))) ≠ [[("a", 1)]] := by
  refine ⟨rfl, rfl, rfl, by decide⟩

/-- Claim C9 (amended): each write attempt writes the deep value of the
entry snapshot at write time; mutations that only rebind top-level
properties to fresh cells, or write cells not shared with the snapshot,
never change what is written — every attempt writes the entry-time
value.  In-place mutations of shared nested cells are excluded: they are
visible to the snapshot (see the counterexample). -/
theorem C9_snapshot_isolation (top0 : List (String × Nat)) (h0 : Heap)
    (groups : List (List Mut))
    (hsafe : ∀ g ∈ groups, ∀ m ∈ g,
      (((getStateSnapshot top0).map Prod.snd).contains (mutRef m)) = false) :
    saveWrites top0 h0 groups =
      groups.map (fun _ => deepValue h0 (getStateSnapshot top0)) := by
  rw [saveWrites]
  have hgen : ∀ (gs : List (List Mut)) (st : List (String × Nat) × Heap),
      (∀ g ∈ gs, ∀ m ∈ g,
        (((getStateSnapshot top0).map Prod.snd).contains (mutRef m)) = false) →
      saveWritesAux (getStateSnapshot top0) st gs =
        gs.map (fun _ => deepValue st.2 (getStateSnapshot top0)) := by
    intro gs
    induction gs with
    | nil => intro st _; rfl
    | cons g rest ih =>
      intro st hs
      rw [saveWritesAux]
      have hval := deepValue_applyMuts (getStateSnapshot top0) g st (hs g (by simp))
      rw [ih (applyMuts st g) (fun g2 hg2 => hs g2 (by simp [hg2]))]
      rw [hval]
      simp
  exact hgen groups (top0, h0) hsafe

/-- Witness for the amended C9: a top-level rebinding to a fresh cell
between the snapshot and the only write attempt leaves the written
content at the entry-time value. -/
theorem C9_snapshot_isolation_witness :
    saveWrites [("a", 0)] (fun _ => 1) [[Mut.bindTop "a" 7 99]] =
      [[(("a" : String), (1 : Int))]] := by
  have h := C9_snapshot_isolation [("a", 0)] (fun _ => 1) [[Mut.bindTop "a" 7 99]]
    (by intro g hg m hm; simp at hg; subst hg; simp at hm; subst hm; decide)
  rw [h]
  rfl
